import Mathlib

/-!
Verification model of the `ffi-string` crate (`src/lib.rs`).

The crate defines two `repr(C)` records:

* `FFIStr<'a> { ptr : &'a u8, len : u32 }` — a borrowed view of a `&str`;
* `FFIString { ptr : *mut u8, len : u32, cap : u32 }` — an owned wrapper
  around the raw parts of a `String`.

We embed the heap shallowly: an allocation is its list of bytes, a heap is
the list of allocations ever made (the address of an allocation is its
index) together with a log of every release performed.  Releasing never
removes the allocation from the list, it only appends the released address
to the log, so "how many times was this allocation released" is directly
observable as a count on the log.  Machine `usize` values are `Nat`;
the `as u32` narrowing in the source is `% 2 ^ 32`.
-/

set_option autoImplicit false

namespace FFIModel

/-- Modulus of the 32-bit `len`/`cap` fields: `as u32` is reduction mod this. -/
def U32 : Nat := 2 ^ 32

/-- Heap model: `allocs` is every allocation ever made (address = index,
contents = byte list, allocated size = its length); `frees` is the log of
addresses passed to the allocator for release, in order. -/
structure Heap where
  allocs : List (List Nat)
  frees : List Nat
  deriving Repr, DecidableEq

/-- Make a fresh allocation holding `bs`; returns its address. -/
def Heap.alloc (h : Heap) (bs : List Nat) : Nat × Heap :=
  (h.allocs.length, ⟨h.allocs ++ [bs], h.frees⟩)

/-- Release the allocation at address `p` (recorded in the log). -/
def Heap.free (h : Heap) (p : Nat) : Heap :=
  ⟨h.allocs, h.frees ++ [p]⟩

/-- How many times the allocation at `p` has been released. -/
def Heap.freeCount (h : Heap) (p : Nat) : Nat :=
  h.frees.count p

/-- Bytes of the allocation at address `p`. -/
def Heap.bytesAt (h : Heap) (p : Nat) : List Nat :=
  h.allocs.getD p []

/-- Model of Rust `String`: the raw parts `(ptr, len, cap)`, all `usize`
(unbounded `Nat` here); the bytes live in the heap at `ptr`. -/
structure RString where
  ptr : Nat
  len : Nat
  cap : Nat
  deriving Repr, DecidableEq

/-- `String::from(s) : String` for a string slice `s` (the `from.into()`
step of `FFIString::new` on a non-`String` input): copies the bytes into a
fresh allocation of exactly `bs.length` bytes, so `cap = len = bs.length`. -/
def mkString (h : Heap) (bs : List Nat) : RString × Heap :=
  let ph := h.alloc bs
  (⟨ph.1, bs.length, bs.length⟩, ph.2)

/-- The text owned by a `String`: the first `len` bytes of its allocation. -/
def RString.content (s : RString) (h : Heap) : List Nat :=
  (h.bytesAt s.ptr).take s.len

/-- `Drop for String`: releases the backing allocation. -/
def RString.drop (s : RString) (h : Heap) : Heap :=
  h.free s.ptr

/-- `s` describes a real allocation of `h`: it points at an existing
allocation whose allocated size is `s.cap`, with `s.len ≤ s.cap`. -/
def RString.valid (s : RString) (h : Heap) : Prop :=
  s.ptr < h.allocs.length ∧ s.len ≤ s.cap ∧ (h.bytesAt s.ptr).length = s.cap

/-- `FFIString { ptr : *mut u8, len : u32, cap : u32 }`: `len` and `cap`
hold values below `2 ^ 32`. -/
structure FFIString where
  ptr : Nat
  len : Nat
  cap : Nat
  deriving Repr, DecidableEq

/-- `FFIString::new` when the input is already a `String` (`from.into()` is
the identity there): the three raw parts are lifted field by field, `len`
and `cap` narrowed `as u32`; `mem::forget(from)` then suppresses the
source's destructor. Pure: no allocation, no copy, no release. -/
def FFIString.newFromString (s : RString) : FFIString :=
  ⟨s.ptr, s.len % U32, s.cap % U32⟩

/-- Stateful form of `FFIString::new` on a `String`: the heap comes back
unchanged because `mem::forget` suppressed the only destructor in scope. -/
def FFIString.newFromString_st (s : RString) (h : Heap) : FFIString × Heap :=
  (FFIString.newFromString s, h)

/-- `FFIString::new` on a string slice: `from.into()` first copies the
slice into a fresh `String`, whose raw parts are then lifted as above. -/
def FFIString.newFromStr (h : Heap) (bs : List Nat) : FFIString × Heap :=
  let sh := mkString h bs
  (FFIString.newFromString sh.1, sh.2)

/-- `FFIString::into_string`: `String::from_raw_parts(self.ptr, self.len
as usize, self.cap as usize)` hands the same allocation to a new `String`;
`mem::forget(self)` suppresses the wrapper's own `Drop`, so nothing is
released here and the heap is untouched (the function is pure). -/
def FFIString.into_string (f : FFIString) : RString :=
  ⟨f.ptr, f.len, f.cap⟩

/-- `FFIString::as_str` (also what `Display`/`to_string` read):
`str::from_raw_parts(self.ptr, self.len as usize)`. -/
def FFIString.content (f : FFIString) (h : Heap) : List Nat :=
  (h.bytesAt f.ptr).take f.len

/-- `Drop for FFIString`: `String::from_raw_parts(..)` rebuilds the owning
`String` and lets it drop, releasing the wrapper's allocation. -/
def FFIString.drop (f : FFIString) (h : Heap) : Heap :=
  h.free f.ptr

/-- The dangling, aligned sentinel pointer carried by a `String` that owns
no allocation (`NonNull::dangling()` for `u8`: address 1). -/
def danglingPtr : Nat := 1

/-- `ToString::to_string` via the `Display` blanket impl (`String::new()`
plus one `write_str` of the whole text): for empty text no allocation is
performed at all — the result keeps the dangling sentinel pointer and
capacity `0`; for nonempty text one buffer is allocated by `Vec`'s
amortized reservation, whose capacity is `max(8, len)` (`Vec`'s minimum
non-zero capacity for byte-sized elements), the spare capacity bytes being
unspecified (zeros here). -/
def FFIString.to_string (f : FFIString) (h : Heap) : RString × Heap :=
  if (f.content h).length = 0 then (⟨danglingPtr, 0, 0⟩, h)
  else
    (⟨h.allocs.length, (f.content h).length, max 8 (f.content h).length⟩,
      (h.alloc (f.content h
        ++ List.replicate (max 8 (f.content h).length
            - (f.content h).length) 0)).2)

/-- `Clone for FFIString`: `Self::new(self.to_string())` — `to_string`
copies the text into a fresh `String` (no allocation when the text is
empty), whose raw parts `new` then lifts on its zero-copy path. -/
def FFIString.clone (f : FFIString) (h : Heap) : FFIString × Heap :=
  let sh := f.to_string h
  (FFIString.newFromString sh.1, sh.2)

/-- Model of `&str`: start address and byte length of a range of some flat
byte memory (a `List Nat`). -/
structure RustStr where
  start : Nat
  len : Nat
  deriving Repr, DecidableEq

/-- The bytes a slice refers to, relative to memory `m`. -/
def strBytes (m : List Nat) (s : RustStr) : List Nat :=
  (m.drop s.start).take s.len

/-- `FFIStr { ptr : &'a u8, len : u32 }`. -/
structure FFIStr where
  ptr : Nat
  len : Nat
  deriving Repr, DecidableEq

/-- `FFIStr::new`: `ptr` is the address of the slice's first byte
(`&*from.as_ptr()`), `len` is the slice length narrowed `as u32`. -/
def FFIStr.new (s : RustStr) : FFIStr :=
  ⟨s.start, s.len % U32⟩

/-- `FFIStr::as_str`: `str::from_raw_parts(self.ptr, self.len as usize)`. -/
def FFIStr.as_str (f : FFIStr) : RustStr :=
  ⟨f.ptr, f.len⟩

/-- ASCII code of the double-quote character `"`. -/
def quoteByte : Nat := 34

/-- `Display for FFIStr`: `write!(f, "{}", self.as_str())`. -/
def FFIStr.display (f : FFIStr) (m : List Nat) : List Nat :=
  strBytes m f.as_str

/-- `Debug for FFIStr`: `write!(f, "\"{}\"", self.as_str())`. -/
def FFIStr.debugFmt (f : FFIStr) (m : List Nat) : List Nat :=
  [quoteByte] ++ strBytes m f.as_str ++ [quoteByte]

/-- `Display for FFIString`: `write!(f, "{}", self.as_str())`. -/
def FFIString.display (f : FFIString) (h : Heap) : List Nat :=
  f.content h

/-- `Debug for FFIString`: `write!(f, "\"{}\"", self.as_str())`. -/
def FFIString.debugFmt (f : FFIString) (h : Heap) : List Nat :=
  [quoteByte] ++ f.content h ++ [quoteByte]

/- ## Helper lemmas -/

theorem getD_concat_length {α : Type} (l : List α) (a d : α) :
    (l ++ [a]).getD l.length d = a := by
  induction l with
  | nil => rfl
  | cons x xs ih => simp [ih]

theorem alloc_fst (h : Heap) (bs : List Nat) :
    (h.alloc bs).1 = h.allocs.length := rfl

theorem bytesAt_alloc_fresh (h : Heap) (bs : List Nat) :
    (h.alloc bs).2.bytesAt h.allocs.length = bs := by
  simp [Heap.alloc, Heap.bytesAt, getD_concat_length]

theorem freeCount_free_same (h : Heap) (p : Nat) :
    (h.free p).freeCount p = h.freeCount p + 1 := by
  simp [Heap.free, Heap.freeCount]

theorem U32_pos : 0 < U32 := Nat.pos_pow_of_pos 32 (by omega)

theorem newFromStr_fst (h : Heap) (bs : List Nat) :
    (FFIString.newFromStr h bs).1
      = ⟨h.allocs.length, bs.length % U32, bs.length % U32⟩ := rfl

theorem content_len_zero (p c : Nat) (h : Heap) :
    (FFIString.into_string ⟨p, 0, c⟩).content h = [] := by
  simp [FFIString.into_string, RString.content]

/- ## Claims -/

/-- C1, as frozen, fails on the code: for the text of `2 ^ 32` zero bytes,
`FFIString::new` narrows the length `as u32` to `0`, so reconstructing with
`into_string` yields the empty text, not the original. -/
theorem C1_counterexample :
    ((FFIString.newFromStr ⟨[], []⟩ (List.replicate U32 0)).1.into_string).content
        (FFIString.newFromStr ⟨[], []⟩ (List.replicate U32 0)).2
      ≠ List.replicate U32 0 := by
  have h1 : (FFIString.newFromStr ⟨[], []⟩ (List.replicate U32 0)).1
      = ⟨0, 0, 0⟩ := by
    rw [newFromStr_fst, List.length_replicate, Nat.mod_self]; rfl
  rw [h1, content_len_zero]
  intro hcontra
  have hlen := congrArg List.length hcontra
  rw [List.length_nil, List.length_replicate] at hlen
  have hpos := U32_pos
  omega

/-- C1 (amended): for every text of byte length at most `2 ^ 32 - 1`,
constructing an owned wrapper with `FFIString::new` — by the copy path
from a slice, or the zero-copy path from a `String` — and reconstructing
it with `FFIString::into_string` yields text byte-for-byte identical to
the original. -/
theorem C1_round_trip (h : Heap) (bs : List Nat) (s : RString)
    (hbs : bs.length < U32) (hs : s.len < U32) :
    ((FFIString.newFromStr h bs).1.into_string).content
        (FFIString.newFromStr h bs).2 = bs
    ∧ ((FFIString.newFromString s).into_string).content h = s.content h := by
  constructor
  · simp [FFIString.newFromStr, FFIString.newFromString, FFIString.into_string,
      RString.content, mkString, alloc_fst, bytesAt_alloc_fresh,
      Nat.mod_eq_of_lt hbs]
  · simp [FFIString.newFromString, FFIString.into_string, RString.content,
      Nat.mod_eq_of_lt hs]

/-- Witness for C1: the two-byte text `[104, 105]` round-trips through the
copy path, and the `String` `⟨0, 2, 2⟩` over a heap holding those bytes
round-trips through the zero-copy path. -/
theorem C1_round_trip_witness :
    ((FFIString.newFromStr ⟨[[104, 105]], []⟩ [104, 105]).1.into_string).content
        (FFIString.newFromStr ⟨[[104, 105]], []⟩ [104, 105]).2 = [104, 105]
    ∧ ((FFIString.newFromString ⟨0, 2, 2⟩).into_string).content
        ⟨[[104, 105]], []⟩ = RString.content ⟨0, 2, 2⟩ ⟨[[104, 105]], []⟩ :=
  C1_round_trip ⟨[[104, 105]], []⟩ [104, 105] ⟨0, 2, 2⟩ (by decide) (by decide)

/-- C4, as frozen, fails on the code: a `String` of length and capacity
`2 ^ 32` (valid over a heap holding that allocation) is narrowed `as u32`,
so the wrapper stores length `0`, not the original length. -/
theorem C4_counterexample :
    RString.valid ⟨0, U32, U32⟩ ⟨[List.replicate U32 0], []⟩
    ∧ (FFIString.newFromString ⟨0, U32, U32⟩).len
        ≠ (⟨0, U32, U32⟩ : RString).len := by
  refine ⟨⟨?_, le_refl _, ?_⟩, ?_⟩
  · show 0 < [List.replicate U32 0].length
    rw [List.length_singleton]
    omega
  · have hb : Heap.bytesAt ⟨[List.replicate U32 0], []⟩ 0
        = List.replicate U32 0 := rfl
    rw [hb, List.length_replicate]
  · show U32 % U32 ≠ U32
    rw [Nat.mod_self]
    exact Nat.ne_of_lt U32_pos

/-- C4 (amended): for every `String` whose length and capacity are at most
`2 ^ 32 - 1`, `FFIString::new` stores the same pointer, length, and
capacity, and leaves the heap untouched: no allocation, no byte copy, and
the source's destructor is suppressed so nothing is released. The stored
pointer is the source's pointer for strings of any size. -/
theorem C4_zero_copy (s : RString) (h : Heap)
    (hlen : s.len < U32) (hcap : s.cap < U32) :
    (FFIString.newFromString_st s h).1.ptr = s.ptr
    ∧ (FFIString.newFromString_st s h).1.len = s.len
    ∧ (FFIString.newFromString_st s h).1.cap = s.cap
    ∧ (FFIString.newFromString_st s h).2 = h := by
  refine ⟨rfl, ?_, ?_, rfl⟩ <;>
    simp [FFIString.newFromString_st, FFIString.newFromString,
      Nat.mod_eq_of_lt hlen, Nat.mod_eq_of_lt hcap]

/-- Witness for C4: the `String` `⟨3, 2, 5⟩` is lifted field-for-field. -/
theorem C4_zero_copy_witness :
    (FFIString.newFromString_st ⟨3, 2, 5⟩ ⟨[], []⟩).1.ptr = 3
    ∧ (FFIString.newFromString_st ⟨3, 2, 5⟩ ⟨[], []⟩).1.len = 2
    ∧ (FFIString.newFromString_st ⟨3, 2, 5⟩ ⟨[], []⟩).1.cap = 5
    ∧ (FFIString.newFromString_st ⟨3, 2, 5⟩ ⟨[], []⟩).2 = ⟨[], []⟩ :=
  C4_zero_copy ⟨3, 2, 5⟩ ⟨[], []⟩ (by decide) (by decide)

/-- C5, as frozen, fails on the code: for a slice of `2 ^ 32` bytes the
view's 32-bit length wraps to `0`, so reading the view back yields the
empty text rather than the slice's content (the stored address is still
the slice's address). -/
theorem C5_counterexample :
    strBytes (List.replicate U32 0) (FFIStr.new ⟨0, U32⟩).as_str
      ≠ strBytes (List.replicate U32 0) ⟨0, U32⟩ := by
  have h1 : (FFIStr.new ⟨0, U32⟩).as_str = ⟨0, 0⟩ := by
    rw [show (FFIStr.new ⟨0, U32⟩).as_str = (⟨0, U32 % U32⟩ : RustStr) from rfl,
      Nat.mod_self]
  rw [h1]
  have h2 : strBytes (List.replicate U32 0) ⟨0, 0⟩ = [] := by
    simp [strBytes]
  have h3 : strBytes (List.replicate U32 0) ⟨0, U32⟩ = List.replicate U32 0 := by
    show ((List.replicate U32 0).drop 0).take U32 = List.replicate U32 0
    rw [List.drop_zero, List.take_replicate, Nat.min_self]
  rw [h2, h3]
  intro hcontra
  have hlen := congrArg List.length hcontra
  rw [List.length_nil, List.length_replicate] at hlen
  have hpos := U32_pos
  omega

/-- C5 (amended): for every string slice of byte length at most
`2 ^ 32 - 1`, `FFIStr::new` followed by `FFIStr::as_str` yields the very
same slice: equal base address and equal content, no copy. The stored
address equals the slice's address for slices of any size. -/
theorem C5_borrow_fidelity (m : List Nat) (s : RustStr) (hs : s.len < U32) :
    (FFIStr.new s).ptr = s.start
    ∧ (FFIStr.new s).as_str = s
    ∧ strBytes m (FFIStr.new s).as_str = strBytes m s := by
  have h2 : (FFIStr.new s).as_str = s := by
    simp [FFIStr.new, FFIStr.as_str, Nat.mod_eq_of_lt hs]
  exact ⟨rfl, h2, by rw [h2]⟩

/-- Witness for C5: the slice at address `1`, length `2`, over the memory
`[104, 105, 106]`, reads back unchanged. -/
theorem C5_borrow_fidelity_witness :
    (FFIStr.new ⟨1, 2⟩).ptr = 1
    ∧ (FFIStr.new ⟨1, 2⟩).as_str = ⟨1, 2⟩
    ∧ strBytes [104, 105, 106] (FFIStr.new ⟨1, 2⟩).as_str
        = strBytes [104, 105, 106] ⟨1, 2⟩ :=
  C5_borrow_fidelity [104, 105, 106] ⟨1, 2⟩ (by decide)

/-- C3: on any input of byte length exceeding `2 ^ 32 - 1`, both
`FFIStr::new` and `FFIString::new` store the length reduced modulo
`2 ^ 32` in the 32-bit field — a value different from the true length —
and both constructors are total, so no input is rejected. -/
theorem C3_silent_truncation (h : Heap) (bs : List Nat) (s : RustStr)
    (hbs : bs.length > U32 - 1) (hs : s.len > U32 - 1) :
    (FFIStr.new s).len = s.len % U32
    ∧ (FFIStr.new s).len ≠ s.len
    ∧ (FFIString.newFromStr h bs).1.len = bs.length % U32
    ∧ (FFIString.newFromStr h bs).1.len ≠ bs.length := by
  have hU := U32_pos
  have hs32 : U32 ≤ s.len := by omega
  have hbs32 : U32 ≤ bs.length := by omega
  refine ⟨rfl, ?_, rfl, ?_⟩
  · exact Nat.ne_of_lt (lt_of_lt_of_le (Nat.mod_lt _ hU) hs32)
  · exact Nat.ne_of_lt (lt_of_lt_of_le (Nat.mod_lt _ hU) hbs32)

/-- Witness for C3: the text of exactly `2 ^ 32` zero bytes is silently
truncated to stored length `0` by both constructors. -/
theorem C3_silent_truncation_witness :
    (FFIStr.new ⟨0, U32⟩).len = U32 % U32
    ∧ (FFIStr.new ⟨0, U32⟩).len ≠ U32
    ∧ (FFIString.newFromStr ⟨[], []⟩ (List.replicate U32 0)).1.len
        = (List.replicate U32 0).length % U32
    ∧ (FFIString.newFromStr ⟨[], []⟩ (List.replicate U32 0)).1.len
        ≠ (List.replicate U32 0).length :=
  C3_silent_truncation ⟨[], []⟩ (List.replicate U32 0) ⟨0, U32⟩
    (by rw [List.length_replicate]; exact Nat.sub_lt U32_pos Nat.one_pos)
    (Nat.sub_lt U32_pos Nat.one_pos)

/-- C6, as frozen, fails on the code: a `String` with length `2 ^ 32 - 1`
and capacity `2 ^ 32` (valid over a heap holding that allocation) yields a
wrapper whose stored capacity `0` is strictly below its stored length,
because the two fields are narrowed `as u32` independently. -/
theorem C6_counterexample :
    RString.valid ⟨0, U32 - 1, U32⟩ ⟨[List.replicate U32 0], []⟩
    ∧ (FFIString.newFromString ⟨0, U32 - 1, U32⟩).cap
        < (FFIString.newFromString ⟨0, U32 - 1, U32⟩).len := by
  have h1lt : 1 < U32 := Nat.one_lt_two_pow (by omega)
  refine ⟨⟨?_, ?_, ?_⟩, ?_⟩
  · show 0 < [List.replicate U32 0].length
    rw [List.length_singleton]
    omega
  · show U32 - 1 ≤ U32
    omega
  · have hb : Heap.bytesAt ⟨[List.replicate U32 0], []⟩ 0
        = List.replicate U32 0 := rfl
    rw [hb, List.length_replicate]
  · show U32 % U32 < (U32 - 1) % U32
    rw [Nat.mod_self, Nat.mod_eq_of_lt (by omega)]
    omega

/-- C6 (amended): the stored capacity is at least the stored length for
every wrapper built by a public constructor, provided that when the
wrapper is built directly from a `String` that `String`'s capacity is at
most `2 ^ 32 - 1`; on the copy path (`new` on a slice,
`StrToFFI::to_ffi_string`) and for `Clone` this holds for all inputs,
since the fresh `String`'s capacity there never exceeds `2 ^ 32 - 1`
without its length doing so too. -/
theorem C6_cap_ge_len (s : RString) (h : Heap) (bs : List Nat) (f : FFIString)
    (hsc : s.len ≤ s.cap) (hcap : s.cap < U32) :
    (FFIString.newFromString s).len ≤ (FFIString.newFromString s).cap
    ∧ (FFIString.newFromStr h bs).1.len ≤ (FFIString.newFromStr h bs).1.cap
    ∧ (f.clone h).1.len ≤ (f.clone h).1.cap := by
  refine ⟨?_, le_refl _, ?_⟩
  · show s.len % U32 ≤ s.cap % U32
    rw [Nat.mod_eq_of_lt hcap, Nat.mod_eq_of_lt (lt_of_le_of_lt hsc hcap)]
    exact hsc
  · by_cases h0 : (f.content h).length = 0
    · have hnil : f.content h = [] := List.length_eq_zero.mp h0
      simp [FFIString.clone, FFIString.to_string, hnil,
        FFIString.newFromString]
    · simp only [FFIString.clone, FFIString.to_string, if_neg h0,
        FFIString.newFromString]
      rcases Nat.le_total (f.content h).length 8 with hle | hge
      · have h8 : (8 : Nat) < U32 := by norm_num [U32]
        rw [Nat.max_eq_left hle, Nat.mod_eq_of_lt (lt_of_le_of_lt hle h8),
          Nat.mod_eq_of_lt h8]
        exact hle
      · rw [Nat.max_eq_right hge]

/-- Witness for C6: the `String` `⟨0, 1, 2⟩`, the slice text `[104]`, and
the wrapper `⟨0, 1, 1⟩` over the heap `⟨[[104]], []⟩`. -/
theorem C6_cap_ge_len_witness :
    (FFIString.newFromString ⟨0, 1, 2⟩).len ≤ (FFIString.newFromString ⟨0, 1, 2⟩).cap
    ∧ (FFIString.newFromStr ⟨[[104]], []⟩ [104]).1.len
        ≤ (FFIString.newFromStr ⟨[[104]], []⟩ [104]).1.cap
    ∧ (FFIString.clone ⟨0, 1, 1⟩ ⟨[[104]], []⟩).1.len
        ≤ (FFIString.clone ⟨0, 1, 1⟩ ⟨[[104]], []⟩).1.cap :=
  C6_cap_ge_len ⟨0, 1, 2⟩ ⟨[[104]], []⟩ [104] ⟨0, 1, 1⟩ (by decide) (by decide)

/-- C7, as frozen, fails on the code: cloning the wrapper that
`FFIString::new("")` produces — the dangling sentinel pointer with length
and capacity `0` — allocates no buffer at all, because `to_string` of
empty text performs no allocation, and the clone carries the very same
pointer value, so the two wrappers do not own distinct fresh buffers. -/
theorem C7_counterexample :
    (FFIString.clone ⟨danglingPtr, 0, 0⟩ ⟨[], []⟩).1.ptr
        = (⟨danglingPtr, 0, 0⟩ : FFIString).ptr
    ∧ (FFIString.clone ⟨danglingPtr, 0, 0⟩ ⟨[], []⟩).2.allocs.length
        = (⟨[], []⟩ : Heap).allocs.length := by
  constructor <;> rfl

/-- C7 (amended): cloning a wrapper that points into the heap and has
nonempty content yields a wrapper at a genuinely fresh address (never the
original's), the heap gains exactly one new allocation, and the clone's
content equals the original's; for empty content no buffer is allocated
and the clone carries the dangling sentinel pointer. -/
theorem C7_clone_independent (f : FFIString) (h : Heap)
    (hp : f.ptr < h.allocs.length) (hl : f.len < U32)
    (hne : f.content h ≠ []) :
    (f.clone h).1.ptr ≠ f.ptr
    ∧ (f.clone h).2.allocs.length = h.allocs.length + 1
    ∧ (f.clone h).1.content (f.clone h).2 = f.content h := by
  have hL0 : (f.content h).length ≠ 0 := fun hc =>
    hne (List.length_eq_zero.mp hc)
  have hL : (f.content h).length ≤ f.len := by
    rw [FFIString.content, List.length_take]
    exact min_le_left _ _
  have hLU : (f.content h).length < U32 := lt_of_le_of_lt hL hl
  have hts : f.clone h
      = (FFIString.newFromString
            ⟨h.allocs.length, (f.content h).length,
              max 8 (f.content h).length⟩,
          (h.alloc (f.content h
            ++ List.replicate (max 8 (f.content h).length
                - (f.content h).length) 0)).2) := by
    simp only [FFIString.clone, FFIString.to_string, if_neg hL0]
  rw [hts]
  refine ⟨?_, ?_, ?_⟩
  · show h.allocs.length ≠ f.ptr
    exact (Nat.ne_of_lt hp).symm
  · simp [Heap.alloc]
  · have hb := bytesAt_alloc_fresh h (f.content h
      ++ List.replicate (max 8 (f.content h).length
          - (f.content h).length) 0)
    have hptr2 : (FFIString.newFromString
        ⟨h.allocs.length, (f.content h).length,
          max 8 (f.content h).length⟩).ptr = h.allocs.length := rfl
    have hlen2 : (FFIString.newFromString
        ⟨h.allocs.length, (f.content h).length,
          max 8 (f.content h).length⟩).len = (f.content h).length :=
      Nat.mod_eq_of_lt hLU
    conv_lhs => rw [FFIString.content]
    rw [hptr2, hlen2, hb, List.take_left]

/-- Witness for C7: cloning the wrapper `⟨0, 1, 1⟩` (content `[104]`) over
the heap holding the single allocation `[104]`. -/
theorem C7_clone_independent_witness :
    (FFIString.clone ⟨0, 1, 1⟩ ⟨[[104]], []⟩).1.ptr ≠ 0
    ∧ (FFIString.clone ⟨0, 1, 1⟩ ⟨[[104]], []⟩).2.allocs.length = 1 + 1
    ∧ (FFIString.clone ⟨0, 1, 1⟩ ⟨[[104]], []⟩).1.content
        (FFIString.clone ⟨0, 1, 1⟩ ⟨[[104]], []⟩).2
        = FFIString.content ⟨0, 1, 1⟩ ⟨[[104]], []⟩ :=
  C7_clone_independent ⟨0, 1, 1⟩ ⟨[[104]], []⟩ (by decide) (by decide)
    (by decide)

/-- C8: `Display` of a view or wrapper renders exactly the underlying
text (for a freshly constructed wrapper, the very text it was built from;
for a view, the bytes of the slice it was built from), and `Debug`
renders the same text with one double-quote byte on each side. -/
theorem C8_formatting (h : Heap) (bs : List Nat) (m : List Nat) (s : RustStr)
    (hbs : bs.length < U32) (hs : s.len < U32) :
    (FFIString.newFromStr h bs).1.display (FFIString.newFromStr h bs).2 = bs
    ∧ (FFIString.newFromStr h bs).1.debugFmt (FFIString.newFromStr h bs).2
        = [quoteByte] ++ bs ++ [quoteByte]
    ∧ (FFIStr.new s).display m = strBytes m s
    ∧ (FFIStr.new s).debugFmt m = [quoteByte] ++ strBytes m s ++ [quoteByte] := by
  have hw : (FFIString.newFromStr h bs).1.content (FFIString.newFromStr h bs).2
      = bs := by
    simp [FFIString.newFromStr, mkString, FFIString.newFromString,
      FFIString.content, alloc_fst, bytesAt_alloc_fresh, Nat.mod_eq_of_lt hbs]
  have hv : strBytes m (FFIStr.new s).as_str = strBytes m s := by
    have ha : (FFIStr.new s).as_str = s := by
      simp [FFIStr.new, FFIStr.as_str, Nat.mod_eq_of_lt hs]
    rw [ha]
  exact ⟨hw, by simp only [FFIString.debugFmt, hw], hv,
    by simp only [FFIStr.debugFmt, FFIStr.display, hv]⟩

/-- Witness for C8: the wrapper built from `[104, 105]` and the view of
the slice at address `0`, length `1`, over the memory `[104]`. -/
theorem C8_formatting_witness :
    (FFIString.newFromStr ⟨[], []⟩ [104, 105]).1.display
        (FFIString.newFromStr ⟨[], []⟩ [104, 105]).2 = [104, 105]
    ∧ (FFIString.newFromStr ⟨[], []⟩ [104, 105]).1.debugFmt
        (FFIString.newFromStr ⟨[], []⟩ [104, 105]).2
        = [quoteByte] ++ [104, 105] ++ [quoteByte]
    ∧ (FFIStr.new ⟨0, 1⟩).display [104] = strBytes [104] ⟨0, 1⟩
    ∧ (FFIStr.new ⟨0, 1⟩).debugFmt [104]
        = [quoteByte] ++ strBytes [104] ⟨0, 1⟩ ++ [quoteByte] :=
  C8_formatting ⟨[], []⟩ [104, 105] [104] ⟨0, 1⟩ (by decide) (by decide)

/-- C10: for the empty string input, `FFIStr::new` still succeeds: the
stored length is `0`, the stored pointer is the slice's base address, and
`FFIStr::as_str` reads back the empty string, whatever the memory. -/
theorem C10_empty_view (m : List Nat) (p : Nat) :
    (FFIStr.new ⟨p, 0⟩).len = 0
    ∧ (FFIStr.new ⟨p, 0⟩).ptr = p
    ∧ strBytes m (FFIStr.new ⟨p, 0⟩).as_str = [] := by
  refine ⟨rfl, rfl, ?_⟩
  simp [FFIStr.new, FFIStr.as_str, strBytes, U32]

end FFIModel
